import Mathlib

/-!
Verification of the cTracker balance-projection core.

Shallow embedding of:
  * `src/utils/balanceProjection.ts` — the range projection engine;
  * `src/utils/balance.ts` — current balance and the single-date fallback;
  * `src/utils/quickRanges.ts` — quick relative date windows;
  * the SQL function `process_due_status_transitions` from the schema
    migration — the status-transition engine.

Modelling conventions:
  * Calendar dates appear in the source as zero-padded ISO strings
    (`YYYY-MM-DD`); the engines use them only through lexicographic
    comparison (which on such strings agrees with calendar order) and
    through `addDays(_, 1)` / `setUTCDate(+n)` (civil-day successor and
    shifts).  We embed a date as its civil day number (`Int`); `dayNumber`
    converts a concrete Gregorian date to that number, so successor and
    order are preserved exactly.
  * Monetary amounts are JavaScript numbers in the source; claims are
    about their exact algebra, so amounts are embedded as `Int`.
  * `Transaction` keeps the fields the engines read (`type`, `amount`,
    `status`, `dueDate`, `createdAt` as the stable secondary sort key);
    the remaining fields are opaque passthrough data, represented by `id`.
  * Fallible paths (the source throws on `startDate > endDate`, and the
    quick-range switch can fall through to `undefined`) return `Option`.
-/

inductive TransactionType where
  | deposit
  | cheque
  | withdrawal
deriving DecidableEq, Repr

inductive TransactionStatus where
  | pending
  | deducted
  | cleared
deriving DecidableEq, Repr

structure Transaction where
  id : String
  type : TransactionType
  amount : Int
  status : TransactionStatus
  dueDate : Int
  createdAt : Int
deriving DecidableEq, Repr

/-- `true` iff `y` is a Gregorian leap year. -/
def isLeapYear (y : Nat) : Bool :=
  y % 4 == 0 && (y % 100 != 0 || y % 400 == 0)

/-- Days of the year strictly before month `m` (1-based). -/
def daysBeforeMonth (leap : Bool) (m : Nat) : Nat :=
  (match m with
   | 1 => 0 | 2 => 31 | 3 => 59 | 4 => 90 | 5 => 120 | 6 => 151
   | 7 => 181 | 8 => 212 | 9 => 243 | 10 => 273 | 11 => 304 | _ => 334)
  + (if leap && 2 < m then 1 else 0)

/-- Civil day number of the Gregorian date `y-m-d`; the embedding of an ISO
date string.  Successive calendar dates map to successive integers, and
lexicographic ISO-string order maps to integer order. -/
def dayNumber (y m d : Nat) : Int :=
  ((365 * (y - 1) + (y - 1) / 4 - (y - 1) / 100 + (y - 1) / 400
    + daysBeforeMonth (isLeapYear y) m + (d - 1) : Nat) : Int)

namespace BalanceProjection

/-- Embeds `BalanceTotals` from `balanceProjection.ts`. -/
structure BalanceTotals where
  deposits : Int
  cheques : Int
  withdrawals : Int
deriving DecidableEq, Repr

/-- Embeds `DayProjection`. -/
structure DayProjection where
  date : Int
  dayTotals : BalanceTotals
  cumulativeTotals : BalanceTotals
  projectedBalance : Int
deriving DecidableEq, Repr

/-- Embeds `ProjectionResult`; `byDate` is the date-keyed lookup object,
built from the same day records. -/
structure ProjectionResult where
  rangeStart : Int
  rangeEnd : Int
  currentBalance : Int
  days : List DayProjection
  byDate : List (Int × DayProjection)
deriving DecidableEq, Repr

/-- Embeds `BuildProjectionParams`. -/
structure BuildProjectionParams where
  currentBalance : Int
  transactions : List Transaction
  startDate : Int
  endDate : Int

/-- Embeds `createEmptyTotals`. -/
def createEmptyTotals : BalanceTotals :=
  { deposits := 0, cheques := 0, withdrawals := 0 }

/-- Embeds `isProjectionEligibleStatus`: membership in
`PROJECTION_ELIGIBLE_STATUSES = ['pending', 'deducted', 'cleared']`.
On the closed `TransactionStatus` union this is exhaustive. -/
def isProjectionEligibleStatus (status : TransactionStatus) : Bool :=
  status == .pending || status == .deducted || status == .cleared

/-- Embeds `applyTransactionToTotals` (functionally, the source mutates
`totals` in place). -/
def applyTransactionToTotals (totals : BalanceTotals) (t : Transaction) : BalanceTotals :=
  if !isProjectionEligibleStatus t.status then totals
  else
    match t.type with
    | .deposit => { totals with deposits := totals.deposits + t.amount }
    | .cheque => { totals with cheques := totals.cheques + t.amount }
    | .withdrawal => { totals with withdrawals := totals.withdrawals + t.amount }

/-- Embeds `getProjectedBalance`. -/
def getProjectedBalance (currentBalance : Int) (totals : BalanceTotals) : Int :=
  currentBalance + totals.deposits - totals.cheques - totals.withdrawals

/-- The cursor loop of `listDateRange`: `n` consecutive dates starting at
`start`. -/
def dateList (start : Int) : Nat → List Int
  | 0 => []
  | n + 1 => start :: dateList (start + 1) n

/-- Embeds `listDateRange`; the source throws when `startDate > endDate`,
embedded as `none`. -/
def listDateRange (startDate endDate : Int) : Option (List Int) :=
  if startDate > endDate then none
  else some (dateList startDate (endDate + 1 - startDate).toNat)

/-- The sort comparator of `calculateProjectedBalancesForRange`:
`dueDate` ascending, ties by `createdAt` (the stable secondary key). -/
def txSortLe (a b : Transaction) : Bool :=
  a.dueDate < b.dueDate || (a.dueDate == b.dueDate && a.createdAt ≤ b.createdAt)

/-- Insert `x` into `l` before the first element `y` with `le x y`;
elements equivalent under `le` keep their existing position ahead of `x`
when `x` arrives later in `sortByKey` below. -/
def sortInsert (le : Transaction → Transaction → Bool) (x : Transaction) :
    List Transaction → List Transaction
  | [] => [x]
  | y :: ys => if le x y then x :: y :: ys else y :: sortInsert le x ys

/-- Stable sort by the comparator `le`, embedding the source's
`Array.prototype.sort` call (a stable sort). -/
def sortByKey (le : Transaction → Transaction → Bool)
    (l : List Transaction) : List Transaction :=
  l.foldr (sortInsert le) []

/-- The per-date loop of `calculateProjectedBalancesForRange`: consume the
sorted pending list date by date, folding each day's due transactions into
fresh `dayTotals` and the running cumulative accumulator, and emit one
`DayProjection` per date (the source's `cloneTotals` snapshot is implicit
in the functional embedding). -/
def walkDays (currentBalance : Int) (cumulativeTotals : BalanceTotals)
    (pending : List Transaction) : List Int → List DayProjection
  | [] => []
  | date :: rest =>
    let dueToday := pending.takeWhile (fun t => t.dueDate == date)
    let dayTotals := dueToday.foldl applyTransactionToTotals createEmptyTotals
    let cumulative := dueToday.foldl applyTransactionToTotals cumulativeTotals
    { date := date, dayTotals := dayTotals, cumulativeTotals := cumulative,
      projectedBalance := getProjectedBalance currentBalance cumulative }
      :: walkDays currentBalance cumulative
          (pending.dropWhile (fun t => t.dueDate == date)) rest

/-- Embeds `calculateProjectedBalancesForRange`: filter to
projection-eligible statuses, sort by `(dueDate, createdAt)`, seed the
cumulative accumulator with every transaction due before the range, then
walk the dates. -/
def calculateProjectedBalancesForRange (params : BuildProjectionParams) :
    Option ProjectionResult :=
  (listDateRange params.startDate params.endDate).map (fun dates =>
    let sorted :=
      sortByKey txSortLe
        (params.transactions.filter (fun t => isProjectionEligibleStatus t.status))
    let seeded :=
      (sorted.takeWhile (fun t => t.dueDate < params.startDate)).foldl
        applyTransactionToTotals createEmptyTotals
    let pending := sorted.dropWhile (fun t => t.dueDate < params.startDate)
    let days := walkDays params.currentBalance seeded pending dates
    { rangeStart := params.startDate, rangeEnd := params.endDate,
      currentBalance := params.currentBalance, days := days,
      byDate := days.map (fun p => (p.date, p)) })

/-- Embeds the `calculateCurrentBalance` of `balanceProjection.ts`: fold
only `cleared` transactions into totals. -/
def calculateCurrentBalance (openingBalance : Int) (transactions : List Transaction) : Int :=
  getProjectedBalance openingBalance
    ((transactions.filter (fun t => t.status == .cleared)).foldl
      applyTransactionToTotals createEmptyTotals)

/-- Embeds `getDateProjectionDetail`: lookup in `byDate`, `null` as `none`. -/
def getDateProjectionDetail (projection : ProjectionResult) (dateIso : Int) :
    Option DayProjection :=
  (projection.byDate.find? (fun entry => entry.fst == dateIso)).map (fun entry => entry.snd)

end BalanceProjection

namespace Balance

/-- Embeds the `calculateCurrentBalance` of `balance.ts`: cleared deposits
minus cleared outflows (cheques and withdrawals), each summed with
`reduce((total, t) => total + t.amount, 0)`. -/
def calculateCurrentBalance (openingBalance : Int) (transactions : List Transaction) : Int :=
  let cleared := transactions.filter (fun t => t.status == .cleared)
  let clearedDeposits :=
    (cleared.filter (fun t => t.type == .deposit)).foldl
      (fun total t => total + t.amount) 0
  let clearedOutflows :=
    (cleared.filter (fun t => t.type == .cheque || t.type == .withdrawal)).foldl
      (fun total t => total + t.amount) 0
  openingBalance + clearedDeposits - clearedOutflows

/-- Embeds `calculateProjectedBalanceOnDate` of `balance.ts`: all
transactions with `dueDate <= dateIso` (no status filter), split by kind. -/
def calculateProjectedBalanceOnDate (currentBalance : Int)
    (transactions : List Transaction) (dateIso : Int) : Int :=
  let projectionEligible := transactions.filter (fun t => t.dueDate ≤ dateIso)
  let projectedDeposits :=
    (projectionEligible.filter (fun t => t.type == .deposit)).foldl
      (fun total t => total + t.amount) 0
  let projectedCheques :=
    (projectionEligible.filter (fun t => t.type == .cheque)).foldl
      (fun total t => total + t.amount) 0
  let projectedWithdrawals :=
    (projectionEligible.filter (fun t => t.type == .withdrawal)).foldl
      (fun total t => total + t.amount) 0
  currentBalance + projectedDeposits - projectedCheques - projectedWithdrawals

end Balance

namespace QuickRanges

/-- The quick-range kinds offered by the UI dropdown (`''` and `'custom'`
never reach `getQuickRangeDates`; the page handler returns before calling
it).  Note the dropdown offers `thisMonth` and the page casts the raw
option value, so `thisMonth` does reach `getQuickRangeDates` at runtime
even though the TypeScript parameter type omits it. -/
inductive QuickRangeKind where
  | lastWeek
  | lastMonth
  | thisMonth
  | nextWeek
  | nextMonth
deriving DecidableEq, Repr

structure QuickRangeDates where
  startDate : Int
  endDate : Int
deriving DecidableEq, Repr

/-- Embeds `getQuickRangeDates` of `quickRanges.ts`.  `todayIso` is the
caller's "today" already resolved to a civil date (the source resolves the
reference instant in the Asia/Kathmandu timezone; that resolution is the
timezone collaborator's concern).  `addDaysToIsoDate` is civil-day
arithmetic, embedded as integer shift.  The source `switch` has no
`thisMonth` case and no default, so that input falls through and the
function returns `undefined`, embedded as `none`. -/
def getQuickRangeDates (quickRange : QuickRangeKind) (todayIso : Int) :
    Option QuickRangeDates :=
  match quickRange with
  | .lastWeek => some { startDate := todayIso - 7, endDate := todayIso }
  | .lastMonth => some { startDate := todayIso - 30, endDate := todayIso }
  | .nextWeek => some { startDate := todayIso, endDate := todayIso + 7 }
  | .nextMonth => some { startDate := todayIso, endDate := todayIso + 30 }
  | .thisMonth => none

end QuickRanges

namespace Transitions

/-- Embeds the `jsonb` result of `process_due_status_transitions` together
with the updated rows: `local_date`, the two row counts, and the
post-update transaction snapshot. -/
structure TransitionOutcome where
  localDate : Int
  updatedChequesWithdrawals : Nat
  updatedDeposits : Nat
  transactions : List Transaction
deriving DecidableEq, Repr

/-- Row predicate of the first UPDATE: pending cheques/withdrawals due on
the local date. -/
def chequeWithdrawalDue (localToday : Int) (t : Transaction) : Bool :=
  (t.type == .cheque || t.type == .withdrawal)
    && t.status == .pending && t.dueDate == localToday

/-- Row predicate of the second UPDATE: pending deposits due on the local
date. -/
def depositDue (localToday : Int) (t : Transaction) : Bool :=
  t.type == .deposit && t.status == .pending && t.dueDate == localToday

/-- Embeds the SQL function `process_due_status_transitions` over the
invoking user's transaction snapshot (the `user_id = auth.uid()` scoping
selects that snapshot, and the timezone resolution that yields
`local_today` is performed before the updates; both are external to the
row transformation embedded here).  Two sequential UPDATEs: pending
cheques/withdrawals due today become `deducted`, then pending deposits due
today become `cleared`; each `row_count` diagnostic counts the rows
matched by that UPDATE against the state it ran on. -/
def process_due_status_transitions (localToday : Int) (txs : List Transaction) :
    TransitionOutcome :=
  let afterFirst :=
    txs.map (fun t =>
      if chequeWithdrawalDue localToday t then { t with status := .deducted } else t)
  let updatedChequesWithdrawals := (txs.filter (chequeWithdrawalDue localToday)).length
  let afterSecond :=
    afterFirst.map (fun t =>
      if depositDue localToday t then { t with status := .cleared } else t)
  let updatedDeposits := (afterFirst.filter (depositDue localToday)).length
  { localDate := localToday,
    updatedChequesWithdrawals := updatedChequesWithdrawals,
    updatedDeposits := updatedDeposits,
    transactions := afterSecond }

/-- Repeated invocation of the transition engine on successive local dates
(each run's persisted rows feed the next run). -/
def applySequence (dates : List Int) (txs : List Transaction) : List Transaction :=
  dates.foldl (fun acc d => (process_due_status_transitions d acc).transactions) txs

end Transitions

namespace BalanceProjection

/-! Specification-side aggregates: order-independent sums over the
original transaction list, used to characterise the engine's output. -/

/-- Sum of the amounts of the transactions satisfying `p`. -/
def sumBy (p : Transaction → Bool) (l : List Transaction) : Int :=
  ((l.filter p).map (fun t => t.amount)).sum

/-- Totals obtained by adding, on top of `acc`, every transaction of `l`
to the bucket of its kind. -/
def totalsOn (acc : BalanceTotals) (l : List Transaction) : BalanceTotals :=
  { deposits := acc.deposits + sumBy (fun t => t.type == .deposit) l,
    cheques := acc.cheques + sumBy (fun t => t.type == .cheque) l,
    withdrawals := acc.withdrawals + sumBy (fun t => t.type == .withdrawal) l }

/-- Projection-eligible transactions due exactly on `d`. -/
def dueOn (txs : List Transaction) (d : Int) : List Transaction :=
  txs.filter (fun t => isProjectionEligibleStatus t.status && t.dueDate == d)

/-- Projection-eligible transactions due on or before `d`. -/
def dueUpTo (txs : List Transaction) (d : Int) : List Transaction :=
  txs.filter (fun t => isProjectionEligibleStatus t.status && t.dueDate ≤ d)

/-- The day record the engine is expected to emit for the `i`-th date of a
window starting at `start`. -/
def specDay (cb : Int) (txs : List Transaction) (start : Int) (i : Nat) : DayProjection :=
  { date := start + i,
    dayTotals := totalsOn createEmptyTotals (dueOn txs (start + i)),
    cumulativeTotals := totalsOn createEmptyTotals (dueUpTo txs (start + i)),
    projectedBalance :=
      getProjectedBalance cb (totalsOn createEmptyTotals (dueUpTo txs (start + i))) }

/-- The expected day list for a window of `n` days starting at `start`. -/
def specDays (cb : Int) (txs : List Transaction) (start : Int) (n : Nat) :
    List DayProjection :=
  (List.range n).map (specDay cb txs start)

theorem isProjectionEligibleStatus_true (s : TransactionStatus) :
    isProjectionEligibleStatus s = true := by
  cases s <;> rfl

theorem sumBy_nil (p : Transaction → Bool) : sumBy p [] = 0 := rfl

theorem sumBy_cons (p : Transaction → Bool) (t : Transaction) (l : List Transaction) :
    sumBy p (t :: l) = (if p t then t.amount else 0) + sumBy p l := by
  by_cases h : p t <;> simp [sumBy, List.filter_cons, h]

theorem sumBy_append (p : Transaction → Bool) (l₁ l₂ : List Transaction) :
    sumBy p (l₁ ++ l₂) = sumBy p l₁ + sumBy p l₂ := by
  simp [sumBy, List.filter_append]

theorem sumBy_congr {p q : Transaction → Bool} {l : List Transaction}
    (h : ∀ t ∈ l, p t = q t) : sumBy p l = sumBy q l := by
  simp [sumBy, List.filter_congr h]

theorem sumBy_perm (p : Transaction → Bool) {l₁ l₂ : List Transaction}
    (h : l₁.Perm l₂) : sumBy p l₁ = sumBy p l₂ := by
  simp only [sumBy]
  exact List.Perm.sum_eq (List.Perm.map _ (h.filter p))

theorem sumBy_filter (p q : Transaction → Bool) (l : List Transaction) :
    sumBy p (l.filter q) = sumBy (fun t => p t && q t) l := by
  simp [sumBy, List.filter_filter]

theorem sumBy_split (p c : Transaction → Bool) (l : List Transaction) :
    sumBy p l
      = sumBy (fun t => p t && c t) l + sumBy (fun t => p t && !c t) l := by
  induction l with
  | nil => rfl
  | cons t l ih =>
    rw [sumBy_cons, sumBy_cons, sumBy_cons, ih]
    by_cases hp : p t
    · by_cases hc : c t <;> simp [hp, hc] <;> all_goals omega
    · simp [hp]

theorem sortInsert_perm (le : Transaction → Transaction → Bool) (x : Transaction)
    (l : List Transaction) : (sortInsert le x l).Perm (x :: l) := by
  induction l with
  | nil => exact List.Perm.refl _
  | cons y ys ih =>
    by_cases h : le x y
    · simp [sortInsert, h]
    · simp only [sortInsert, h, Bool.false_eq_true, if_false]
      exact (ih.cons y).trans (List.Perm.swap x y ys)

theorem sortByKey_perm (le : Transaction → Transaction → Bool) (l : List Transaction) :
    (sortByKey le l).Perm l := by
  induction l with
  | nil => exact List.Perm.refl _
  | cons x xs ih =>
    simp only [sortByKey, List.foldr_cons]
    exact (sortInsert_perm le x _).trans (ih.cons x)

theorem mem_sortInsert {le : Transaction → Transaction → Bool} {x z : Transaction}
    {l : List Transaction} :
    z ∈ sortInsert le x l ↔ z = x ∨ z ∈ l := by
  rw [(sortInsert_perm le x l).mem_iff, List.mem_cons]

theorem txSortLe_due_le {a b : Transaction} (h : txSortLe a b = true) :
    a.dueDate ≤ b.dueDate := by
  simp only [txSortLe, Bool.or_eq_true, Bool.and_eq_true, decide_eq_true_eq,
    beq_iff_eq] at h
  rcases h with h | ⟨h, _⟩ <;> omega

theorem txSortLe_false_due_le {a b : Transaction} (h : txSortLe a b = false) :
    b.dueDate ≤ a.dueDate := by
  simp only [txSortLe, Bool.or_eq_false_iff, Bool.and_eq_false_iff,
    decide_eq_false_iff_not, not_lt] at h
  exact h.1

theorem pairwise_sortInsert {x : Transaction} {l : List Transaction}
    (h : List.Pairwise (fun a b => a.dueDate ≤ b.dueDate) l) :
    List.Pairwise (fun a b => a.dueDate ≤ b.dueDate) (sortInsert txSortLe x l) := by
  induction l with
  | nil => simp [sortInsert]
  | cons y ys ih =>
    rcases List.pairwise_cons.mp h with ⟨hy, hys⟩
    by_cases hle : txSortLe x y
    · simp only [sortInsert, hle, if_true]
      refine List.pairwise_cons.mpr ⟨?_, h⟩
      intro z hz
      rcases List.mem_cons.mp hz with rfl | hz
      · exact txSortLe_due_le hle
      · exact le_trans (txSortLe_due_le hle) (hy z hz)
    · simp only [sortInsert, hle, Bool.false_eq_true, if_false]
      refine List.pairwise_cons.mpr ⟨?_, ih hys⟩
      intro z hz
      rcases mem_sortInsert.mp hz with rfl | hz
      · exact txSortLe_false_due_le (by simpa using hle)
      · exact hy z hz

theorem pairwise_sortByKey (l : List Transaction) :
    List.Pairwise (fun a b => a.dueDate ≤ b.dueDate) (sortByKey txSortLe l) := by
  induction l with
  | nil => simp [sortByKey]
  | cons x xs ih =>
    simp only [sortByKey, List.foldr_cons] at ih ⊢
    exact pairwise_sortInsert ih

/-- On a list sorted by `dueDate`, a predicate that is downward closed
along `dueDate` over the list's members splits the list at `takeWhile` /
`dropWhile` exactly as `filter` does. -/
theorem takeWhile_dropWhile_eq_filter_sorted {l : List Transaction}
    {p : Transaction → Bool}
    (hs : List.Pairwise (fun a b => a.dueDate ≤ b.dueDate) l)
    (hmono : ∀ a ∈ l, ∀ b ∈ l, a.dueDate ≤ b.dueDate → p b = true → p a = true) :
    l.takeWhile p = l.filter p ∧ l.dropWhile p = l.filter (fun t => !p t) := by
  induction l with
  | nil => exact ⟨rfl, rfl⟩
  | cons x xs ih =>
    rcases List.pairwise_cons.mp hs with ⟨hx, hxs⟩
    by_cases px : p x
    · have ihx := ih hxs (fun a ha b hb hab hpb =>
        hmono a (List.mem_cons_of_mem x ha) b (List.mem_cons_of_mem x hb) hab hpb)
      constructor
      · simp [List.takeWhile_cons, List.filter_cons, px, ihx.1]
      · simp [List.dropWhile_cons, List.filter_cons, px, ihx.2]
    · have hall : ∀ z ∈ xs, p z = false := by
        intro z hz
        by_contra hpz
        exact px (hmono x (List.mem_cons_self x xs) z (List.mem_cons_of_mem x hz)
          (hx z hz) (by revert hpz; cases p z <;> simp))
      constructor
      · have : xs.filter p = [] := List.filter_eq_nil_iff.mpr (fun z hz => by
          simp [hall z hz])
        simp [List.takeWhile_cons, List.filter_cons, px, this]
      · have : xs.filter (fun t => !p t) = xs := List.filter_eq_self.mpr (fun z hz => by
          simp [hall z hz])
        simp [List.dropWhile_cons, List.filter_cons, px, this]

/-- Folding the engine's `applyTransactionToTotals` over any list adds the
per-kind sums of that list on top of the accumulator. -/
theorem foldl_applyTransactionToTotals (l : List Transaction) (acc : BalanceTotals) :
    l.foldl applyTransactionToTotals acc = totalsOn acc l := by
  induction l generalizing acc with
  | nil => simp [totalsOn, sumBy_nil]
  | cons t l ih =>
    rw [List.foldl_cons, ih]
    simp only [totalsOn, applyTransactionToTotals, isProjectionEligibleStatus_true,
      Bool.not_true, Bool.false_eq_true, if_false, sumBy_cons]
    cases ht : t.type <;> simp [ht, BalanceTotals.mk.injEq]
    all_goals omega

theorem sumBy_filter_merge (l : List Transaction) (pk c q : Transaction → Bool)
    (himp : ∀ t ∈ l, c t = true → q t = true) :
    sumBy pk (l.filter c) + sumBy pk ((l.filter (fun t => !c t)).filter q)
      = sumBy pk (l.filter q) := by
  rw [List.filter_filter, sumBy_filter pk c l,
    sumBy_filter pk (fun t => q t && !c t) l, sumBy_filter pk q l,
    sumBy_split (fun t => pk t && q t) c l]
  have h₁ : sumBy (fun t => pk t && q t && c t) l = sumBy (fun t => pk t && c t) l := by
    refine sumBy_congr (fun t ht => ?_)
    by_cases hc : c t
    · simp [hc, himp t ht hc]
    · simp [hc]
  have h₂ : sumBy (fun t => pk t && (q t && !c t)) l
      = sumBy (fun t => pk t && q t && !c t) l := by
    refine sumBy_congr (fun t ht => ?_)
    cases pk t <;> cases q t <;> cases c t <;> rfl
  rw [h₁, h₂]

theorem totalsOn_totalsOn (acc : BalanceTotals) (l₁ l₂ : List Transaction) :
    totalsOn (totalsOn acc l₁) l₂ =
      { deposits := acc.deposits + sumBy (fun t => t.type == .deposit) l₁
          + sumBy (fun t => t.type == .deposit) l₂,
        cheques := acc.cheques + sumBy (fun t => t.type == .cheque) l₁
          + sumBy (fun t => t.type == .cheque) l₂,
        withdrawals := acc.withdrawals + sumBy (fun t => t.type == .withdrawal) l₁
          + sumBy (fun t => t.type == .withdrawal) l₂ } := rfl

theorem totalsOn_perm (acc : BalanceTotals) {l₁ l₂ : List Transaction}
    (h : l₁.Perm l₂) : totalsOn acc l₁ = totalsOn acc l₂ := by
  simp [totalsOn, sumBy_perm _ h]

theorem totalsOn_append (acc : BalanceTotals) (l₁ l₂ : List Transaction) :
    totalsOn acc (l₁ ++ l₂) = totalsOn (totalsOn acc l₁) l₂ := by
  simp only [totalsOn, sumBy_append, BalanceTotals.mk.injEq]
  refine ⟨?_, ?_, ?_⟩ <;> omega

theorem filter_split_perm (c q : Transaction → Bool) (l : List Transaction) :
    (l.filter q).Perm
      (l.filter (fun t => q t && c t) ++ l.filter (fun t => q t && !c t)) := by
  induction l with
  | nil => exact List.Perm.refl _
  | cons t l ih =>
    simp only [List.filter_cons]
    by_cases hq : q t
    · by_cases hc : c t
      · simp only [hq, hc, Bool.and_self, if_true, List.cons_append]
        exact ih.cons t
      · simp only [hq, hc, Bool.and_false, Bool.and_true, Bool.not_false,
          Bool.false_eq_true, if_false, if_true]
        exact (ih.cons t).trans List.perm_middle.symm
    · simp only [hq, Bool.false_and, Bool.false_eq_true, if_false]
      exact ih

/-- Characterisation of the per-date loop: on a sorted pending list whose
due dates all lie on or after `start`, walking `n` consecutive dates emits
one day per date, whose `dayTotals` aggregate exactly the transactions due
that date and whose cumulative totals extend the incoming accumulator by
every pending transaction due so far. -/
theorem walkDays_spec (cb : Int) :
    ∀ (n : Nat) (start : Int) (cumul : BalanceTotals) (pending : List Transaction),
      List.Pairwise (fun a b => a.dueDate ≤ b.dueDate) pending →
      (∀ t ∈ pending, start ≤ t.dueDate) →
      walkDays cb cumul pending (dateList start n) =
        (List.range n).map (fun i =>
          { date := start + i,
            dayTotals := totalsOn createEmptyTotals
              (pending.filter (fun t => t.dueDate == start + i)),
            cumulativeTotals := totalsOn cumul
              (pending.filter (fun t => t.dueDate ≤ start + i)),
            projectedBalance := getProjectedBalance cb (totalsOn cumul
              (pending.filter (fun t => t.dueDate ≤ start + i))) }) := by
  intro n
  induction n with
  | zero => intro start cumul pending _ _; rfl
  | succ n ih =>
    intro start cumul pending hs hlb
    have hmono : ∀ a ∈ pending, ∀ b ∈ pending, a.dueDate ≤ b.dueDate →
        (a.dueDate == start) = true ∨ (b.dueDate == start) = true →
        True := fun _ _ _ _ _ _ => trivial
    have hpart := takeWhile_dropWhile_eq_filter_sorted
      (p := fun t => t.dueDate == start) hs
      (fun a ha b hb hab hpb => by
        have hb' : b.dueDate = start := by simpa using hpb
        have := hlb a ha
        simp only [beq_iff_eq]
        omega)
    have hcum0 : pending.filter (fun t => t.dueDate == start)
        = pending.filter (fun t => t.dueDate ≤ start) := by
      refine List.filter_congr (fun t ht => ?_)
      have := hlb t ht
      by_cases he : t.dueDate = start
      · simp [he]
      · have : ¬ (t.dueDate ≤ start) := by omega
        simp [he, this]
    have hpend' : ∀ t ∈ pending.filter (fun t => !(t.dueDate == start)),
        start + 1 ≤ t.dueDate := by
      intro t ht
      rcases List.mem_filter.mp ht with ⟨htm, hne⟩
      have := hlb t htm
      have hne' : ¬ (t.dueDate = start) := by simpa using hne
      omega
    have hs' : List.Pairwise (fun a b => a.dueDate ≤ b.dueDate)
        (pending.filter (fun t => !(t.dueDate == start))) :=
      List.Pairwise.sublist (List.filter_sublist _) hs
    have ihx := ih (start + 1)
      ((pending.takeWhile (fun t => t.dueDate == start)).foldl
        applyTransactionToTotals cumul)
      (pending.filter (fun t => !(t.dueDate == start))) hs' hpend'
    show walkDays cb cumul pending (dateList start (n + 1)) = _
    rw [show dateList start (n + 1) = start :: dateList (start + 1) n from rfl]
    rw [walkDays]
    rw [hpart.2, ihx, List.range_succ_eq_map, List.map_cons, List.map_map]
    congr 1
    · -- the head day
      rw [hpart.1]
      simp only [foldl_applyTransactionToTotals, Nat.cast_zero, add_zero]
      rw [← hcum0]
    · -- the tail days
      refine List.map_congr_left (fun i _ => ?_)
      simp only [Function.comp_apply, Nat.succ_eq_add_one]
      rw [hpart.1]
      have hcast : start + 1 + (i : Int) = start + ((i + 1 : Nat) : Int) := by
        push_cast
        ring
      have hday : (pending.filter (fun t => !(t.dueDate == start))).filter
            (fun t => t.dueDate == start + 1 + (i : Int))
          = pending.filter (fun t => t.dueDate == start + ((i + 1 : Nat) : Int)) := by
        rw [List.filter_filter]
        refine List.filter_congr (fun t ht => ?_)
        rw [← hcast]
        by_cases he : t.dueDate = start + 1 + (i : Int)
        · have hne : ¬ (t.dueDate = start) := by omega
          simp [he, hne]
          all_goals omega
        · simp [he]
      have hcumMerge : totalsOn
            ((pending.filter (fun t => t.dueDate == start)).foldl
              applyTransactionToTotals cumul)
            ((pending.filter (fun t => !(t.dueDate == start))).filter
              (fun t => t.dueDate ≤ start + 1 + (i : Int)))
          = totalsOn cumul
            (pending.filter (fun t => t.dueDate ≤ start + ((i + 1 : Nat) : Int))) := by
        rw [foldl_applyTransactionToTotals, totalsOn_totalsOn]
        have hm := fun pk => sumBy_filter_merge pending pk
          (fun t => t.dueDate == start)
          (fun t => decide (t.dueDate ≤ start + 1 + (i : Int)))
          (fun t ht hc => by
            have : t.dueDate = start := by simpa using hc
            simp only [decide_eq_true_eq]
            omega)
        simp only [totalsOn, BalanceTotals.mk.injEq, ← hcast]
        refine ⟨?_, ?_, ?_⟩ <;>
          rw [add_assoc, hm _]
      rw [hday, hcumMerge]
      simp [DayProjection.mk.injEq]
      all_goals omega

/-- The filtered-and-sorted list, restricted to one due date, aggregates
like `dueOn` over the original transactions. -/
theorem totalsOn_sorted_dueOn (txs : List Transaction) (d : Int) (acc : BalanceTotals) :
    totalsOn acc
      ((sortByKey txSortLe
        (txs.filter (fun t => isProjectionEligibleStatus t.status))).filter
          (fun t => t.dueDate == d))
      = totalsOn acc (dueOn txs d) := by
  refine (totalsOn_perm acc
    ((sortByKey_perm txSortLe _).filter (fun t => t.dueDate == d))).trans ?_
  rw [List.filter_filter]
  refine congrArg _ (List.filter_congr (fun t _ => ?_))
  cases t.dueDate == d <;> cases isProjectionEligibleStatus t.status <;> rfl

/-- Same for the prefix of all due dates up to `d`. -/
theorem totalsOn_sorted_dueUpTo (txs : List Transaction) (d : Int) (acc : BalanceTotals) :
    totalsOn acc
      ((sortByKey txSortLe
        (txs.filter (fun t => isProjectionEligibleStatus t.status))).filter
          (fun t => t.dueDate ≤ d))
      = totalsOn acc (dueUpTo txs d) := by
  refine (totalsOn_perm acc
    ((sortByKey_perm txSortLe _).filter (fun t => decide (t.dueDate ≤ d)))).trans ?_
  rw [List.filter_filter]
  refine congrArg _ (List.filter_congr (fun t _ => ?_))
  cases hd : (decide (t.dueDate ≤ d) : Bool) <;>
    cases isProjectionEligibleStatus t.status <;> rfl

/-- Master characterisation of the projection engine: on a valid window it
returns `some` result whose day list is `specDays` — day `i` carries the
date `startDate + i`, the totals of the eligible transactions due that
date, the cumulative totals of every eligible transaction due on or
before it (pre-window ones included), and the projected balance derived
from those cumulative totals; `byDate` pairs each day with its date. -/
theorem calculateProjectedBalancesForRange_spec (params : BuildProjectionParams)
    (h : params.startDate ≤ params.endDate) :
    calculateProjectedBalancesForRange params = some
      { rangeStart := params.startDate, rangeEnd := params.endDate,
        currentBalance := params.currentBalance,
        days := specDays params.currentBalance params.transactions params.startDate
          (params.endDate + 1 - params.startDate).toNat,
        byDate := (specDays params.currentBalance params.transactions params.startDate
          (params.endDate + 1 - params.startDate).toNat).map (fun p => (p.date, p)) } := by
  obtain ⟨cb, txs, start, stop⟩ := params
  simp only at h ⊢
  have hr : listDateRange start stop = some (dateList start (stop + 1 - start).toNat) := by
    simp [listDateRange, not_lt.mpr h]
  rw [calculateProjectedBalancesForRange, hr, Option.map_some']
  congr 1
  dsimp only
  set sorted := sortByKey txSortLe
    (txs.filter (fun t => isProjectionEligibleStatus t.status)) with hsorted_def
  have hsorted : List.Pairwise (fun a b => a.dueDate ≤ b.dueDate) sorted :=
    pairwise_sortByKey _
  have hpart := takeWhile_dropWhile_eq_filter_sorted
    (p := fun t => decide (t.dueDate < start)) hsorted
    (fun a _ b _ hab hpb => by
      simp only [decide_eq_true_eq] at hpb ⊢
      omega)
  have hlb : ∀ t ∈ sorted.filter (fun t => !decide (t.dueDate < start)),
      start ≤ t.dueDate := by
    intro t ht
    rcases List.mem_filter.mp ht with ⟨_, hnd⟩
    simp only [Bool.not_eq_true', decide_eq_false_iff_not, not_lt] at hnd
    exact hnd
  have hs' : List.Pairwise (fun a b => a.dueDate ≤ b.dueDate)
      (sorted.filter (fun t => !decide (t.dueDate < start))) :=
    List.Pairwise.sublist (List.filter_sublist _) hsorted
  have hwalk := walkDays_spec cb ((stop + 1 - start).toNat) start
    ((sorted.takeWhile (fun t => t.dueDate < start)).foldl
      applyTransactionToTotals createEmptyTotals)
    (sorted.filter (fun t => !decide (t.dueDate < start))) hs' hlb
  have hdays : walkDays cb
      ((sorted.takeWhile (fun t => t.dueDate < start)).foldl
        applyTransactionToTotals createEmptyTotals)
      (sorted.dropWhile (fun t => t.dueDate < start))
      (dateList start (stop + 1 - start).toNat)
      = specDays cb txs start (stop + 1 - start).toNat := by
    rw [hpart.2, hwalk]
    simp only [specDays]
    refine List.map_congr_left (fun i _ => ?_)
    have hd : start ≤ start + (i : Int) := by omega
    have hday : (sorted.filter (fun t => !decide (t.dueDate < start))).filter
        (fun t => t.dueDate == start + (i : Int))
        = sorted.filter (fun t => t.dueDate == start + (i : Int)) := by
      rw [List.filter_filter]
      refine List.filter_congr (fun t _ => ?_)
      by_cases he : t.dueDate = start + (i : Int)
      · have : ¬ (t.dueDate < start) := by omega
        simp [he, this]
      · simp [he]
    have hcum : totalsOn
          ((sorted.takeWhile (fun t => t.dueDate < start)).foldl
            applyTransactionToTotals createEmptyTotals)
          ((sorted.filter (fun t => !decide (t.dueDate < start))).filter
            (fun t => t.dueDate ≤ start + (i : Int)))
        = totalsOn createEmptyTotals
          (sorted.filter (fun t => t.dueDate ≤ start + (i : Int))) := by
      rw [hpart.1, foldl_applyTransactionToTotals, ← totalsOn_append]
      refine (totalsOn_perm createEmptyTotals ?_).symm
      refine (filter_split_perm (fun t => decide (t.dueDate < start))
        (fun t => decide (t.dueDate ≤ start + (i : Int))) sorted).trans ?_
      have h₁ : sorted.filter
            (fun t => decide (t.dueDate ≤ start + (i : Int)) && decide (t.dueDate < start))
          = sorted.filter (fun t => decide (t.dueDate < start)) := by
        refine List.filter_congr (fun t _ => ?_)
        by_cases hlt : t.dueDate < start
        · have : t.dueDate ≤ start + (i : Int) := by omega
          simp [hlt, this]
        · simp [hlt]
      have h₂ : sorted.filter
            (fun t => decide (t.dueDate ≤ start + (i : Int)) && !decide (t.dueDate < start))
          = (sorted.filter (fun t => !decide (t.dueDate < start))).filter
              (fun t => t.dueDate ≤ start + (i : Int)) := by
        rw [List.filter_filter]
      rw [h₁, h₂]
    rw [hday, hcum, totalsOn_sorted_dueOn, totalsOn_sorted_dueUpTo]
    rfl
  rw [hdays]

theorem specDays_length (cb : Int) (txs : List Transaction) (start : Int) (n : Nat) :
    (specDays cb txs start n).length = n := by
  simp [specDays]

theorem specDays_getElem (cb : Int) (txs : List Transaction) (start : Int) (n i : Nat)
    (hi : i < n) :
    (specDays cb txs start n)[i]? = some (specDay cb txs start i) := by
  simp [specDays, List.getElem?_map, List.getElem?_range hi]

theorem totalsOn_nil (acc : BalanceTotals) : totalsOn acc [] = acc := by
  simp [totalsOn, sumBy]

/-- Inserting one transaction into a list shifts any `sumBy` by that
transaction's contribution. -/
theorem sumBy_insert (p : Transaction → Bool) (pre post : List Transaction)
    (t : Transaction) :
    sumBy p (pre ++ t :: post)
      = sumBy p (pre ++ post) + (if p t then t.amount else 0) := by
  rw [sumBy_append, sumBy_cons, sumBy_append]
  omega

/-- The signed contribution of a transaction to the projected balance:
deposits inflow, cheques and withdrawals outflow. -/
def signedAmount (t : Transaction) : Int :=
  match t.type with
  | .deposit => t.amount
  | .cheque => -t.amount
  | .withdrawal => -t.amount

theorem getProjectedBalance_apply (cb : Int) (b : BalanceTotals) (t : Transaction) :
    getProjectedBalance cb (applyTransactionToTotals b t)
      = getProjectedBalance cb b + signedAmount t := by
  simp only [applyTransactionToTotals, isProjectionEligibleStatus_true, Bool.not_true,
    Bool.false_eq_true, if_false, signedAmount]
  cases t.type <;> simp [getProjectedBalance] <;> ring

/-- Inserting a transaction that satisfies the filter adds its amount to
its kind's bucket of the filtered totals. -/
theorem totalsOn_filter_insert_pos (p : Transaction → Bool) (acc : BalanceTotals)
    (pre post : List Transaction) (t : Transaction) (hp : p t = true) :
    totalsOn acc ((pre ++ t :: post).filter p)
      = applyTransactionToTotals (totalsOn acc ((pre ++ post).filter p)) t := by
  simp only [totalsOn, applyTransactionToTotals, isProjectionEligibleStatus_true,
    Bool.not_true, Bool.false_eq_true, if_false, sumBy_filter, sumBy_insert, hp]
  cases ht : t.type <;> simp [ht, BalanceTotals.mk.injEq] <;> omega

/-- Inserting a transaction that fails the filter leaves the filtered
totals unchanged. -/
theorem totalsOn_filter_insert_neg (p : Transaction → Bool) (acc : BalanceTotals)
    (pre post : List Transaction) (t : Transaction) (hp : p t = false) :
    totalsOn acc ((pre ++ t :: post).filter p)
      = totalsOn acc ((pre ++ post).filter p) := by
  simp only [totalsOn, sumBy_filter, sumBy_insert, hp]
  simp [BalanceTotals.mk.injEq]

/-- Effect of one extra transaction on the whole projection: the result on
`pre ++ t :: post` relates day by day to the result on `pre ++ post` — the
extra transaction lands in `dayTotals` exactly on its due date, and shifts
`cumulativeTotals` and `projectedBalance` from its due date onward. -/
theorem calcRange_insert (cb : Int) (pre post : List Transaction) (t : Transaction)
    (start stop : Int) (h : start ≤ stop) :
    ∃ r r',
      calculateProjectedBalancesForRange
        { currentBalance := cb, transactions := pre ++ t :: post,
          startDate := start, endDate := stop } = some r ∧
      calculateProjectedBalancesForRange
        { currentBalance := cb, transactions := pre ++ post,
          startDate := start, endDate := stop } = some r' ∧
      r.days.length = r'.days.length ∧
      ∀ (i : Nat) (p q : DayProjection), r.days[i]? = some p → r'.days[i]? = some q →
        p.date = start + (i : Int) ∧ p.date = q.date ∧
        p.dayTotals = (if t.dueDate = p.date
          then applyTransactionToTotals q.dayTotals t else q.dayTotals) ∧
        p.cumulativeTotals = (if t.dueDate ≤ p.date
          then applyTransactionToTotals q.cumulativeTotals t else q.cumulativeTotals) ∧
        p.projectedBalance = (if t.dueDate ≤ p.date
          then q.projectedBalance + signedAmount t else q.projectedBalance) := by
  have h₁ := calculateProjectedBalancesForRange_spec
    { currentBalance := cb, transactions := pre ++ t :: post,
      startDate := start, endDate := stop } h
  have h₂ := calculateProjectedBalancesForRange_spec
    { currentBalance := cb, transactions := pre ++ post,
      startDate := start, endDate := stop } h
  refine ⟨_, _, h₁, h₂, ?_, ?_⟩
  · simp [specDays_length]
  · intro i p q hp hq
    simp only at hp hq
    have hi : i < (stop + 1 - start).toNat := by
      by_contra hni
      rw [List.getElem?_eq_none] at hp
      · exact Option.noConfusion hp
      · simpa [specDays_length] using Nat.le_of_not_lt hni
    rw [specDays_getElem _ _ _ _ _ hi] at hp hq
    obtain rfl : specDay cb (pre ++ t :: post) start i = p := Option.some.inj hp
    obtain rfl : specDay cb (pre ++ post) start i = q := Option.some.inj hq
    have hdate : (specDay cb (pre ++ t :: post) start i).date = start + (i : Int) := rfl
    refine ⟨rfl, rfl, ?_, ?_, ?_⟩
    · -- dayTotals
      by_cases hdue : t.dueDate = start + (i : Int)
      · rw [if_pos (by simpa [specDay] using hdue)]
        simp only [specDay, dueOn]
        exact totalsOn_filter_insert_pos _ _ _ _ _
          (by simp [isProjectionEligibleStatus_true, hdue])
      · rw [if_neg (by simpa [specDay] using hdue)]
        simp only [specDay, dueOn]
        exact totalsOn_filter_insert_neg _ _ _ _ _
          (by simp [isProjectionEligibleStatus_true, hdue])
    · -- cumulativeTotals
      by_cases hdue : t.dueDate ≤ start + (i : Int)
      · rw [if_pos (by simpa [specDay] using hdue)]
        simp only [specDay, dueUpTo]
        exact totalsOn_filter_insert_pos _ _ _ _ _
          (by simp [isProjectionEligibleStatus_true, hdue])
      · rw [if_neg (by simpa [specDay] using hdue)]
        simp only [specDay, dueUpTo]
        exact totalsOn_filter_insert_neg _ _ _ _ _
          (by simp [isProjectionEligibleStatus_true, hdue])
    · -- projectedBalance
      by_cases hdue : t.dueDate ≤ start + (i : Int)
      · rw [if_pos (by simpa [specDay] using hdue)]
        simp only [specDay, dueUpTo]
        rw [totalsOn_filter_insert_pos _ _ _ _ _
          (by simp [isProjectionEligibleStatus_true, hdue])]
        exact getProjectedBalance_apply _ _ _
      · rw [if_neg (by simpa [specDay] using hdue)]
        simp only [specDay, dueUpTo]
        rw [totalsOn_filter_insert_neg _ _ _ _ _
          (by simp [isProjectionEligibleStatus_true, hdue])]

/-- Folding `total + t.amount` (the source's `reduce`) sums the amounts. -/
theorem foldl_amount (l : List Transaction) (a : Int) :
    l.foldl (fun total t => total + t.amount) a
      = a + (l.map (fun t => t.amount)).sum := by
  induction l generalizing a with
  | nil => simp
  | cons t l ih =>
    rw [List.foldl_cons, ih]
    simp
    omega


end BalanceProjection

namespace Transitions

/-- The combined per-row effect of the two sequential UPDATEs of
`process_due_status_transitions`. -/
def transitionStep (d : Int) (t : Transaction) : Transaction :=
  if chequeWithdrawalDue d t then { t with status := .deducted }
  else if depositDue d t then { t with status := .cleared } else t

theorem depositDue_after_first (d : Int) (t : Transaction) :
    depositDue d (if chequeWithdrawalDue d t then { t with status := .deducted } else t)
      = depositDue d t := by
  by_cases h : chequeWithdrawalDue d t
  · simp only [h, if_true, depositDue]
    have ht : (t.type == TransactionType.deposit) = false := by
      simp only [chequeWithdrawalDue, Bool.and_eq_true, Bool.or_eq_true, beq_iff_eq] at h
      rcases h.1.1 with h' | h' <;> simp [h']
    simp [ht]
  · simp [h]

theorem process_transactions_map (d : Int) (txs : List Transaction) :
    (process_due_status_transitions d txs).transactions
      = txs.map (transitionStep d) := by
  simp only [process_due_status_transitions, List.map_map]
  refine List.map_congr_left (fun t _ => ?_)
  simp only [Function.comp_apply, transitionStep]
  by_cases h1 : chequeWithdrawalDue d t
  · have hdep : depositDue d { t with status := TransactionStatus.deducted } = false := by
      simp [depositDue]
    simp [h1, hdep]
  · by_cases h2 : depositDue d t <;> simp [h1, h2]

theorem process_updatedDeposits (d : Int) (txs : List Transaction) :
    (process_due_status_transitions d txs).updatedDeposits
      = (txs.filter (depositDue d)).length := by
  simp only [process_due_status_transitions, List.filter_map, List.length_map]
  congr 1
  refine List.filter_congr (fun t _ => ?_)
  simpa using depositDue_after_first d t

theorem transitionStep_not_matched (d : Int) (t : Transaction) :
    chequeWithdrawalDue d (transitionStep d t) = false
      ∧ depositDue d (transitionStep d t) = false := by
  by_cases h1 : chequeWithdrawalDue d t
  · simp only [transitionStep, h1, if_true]
    constructor
    · simp [chequeWithdrawalDue]
    · simp [depositDue]
  · by_cases h2 : depositDue d t
    · simp only [transitionStep, h1, Bool.false_eq_true, if_false, h2, if_true]
      constructor
      · simp [chequeWithdrawalDue]
      · simp [depositDue]
    · simp only [transitionStep, h1, h2, Bool.false_eq_true, if_false]
      exact ⟨by simp [h1], by simp [h2]⟩

theorem transitionStep_unchanged_of_not_due (d : Int) (t : Transaction)
    (h : t.dueDate ≠ d) : transitionStep d t = t := by
  have hb : (t.dueDate == d) = false := by simpa using h
  simp [transitionStep, chequeWithdrawalDue, depositDue, hb]

end Transitions


/-! Claim theorems. -/

/-- The four instruments of literal scenario B of the specification. -/
def scenarioBTransactions : List Transaction :=
  [{ id := "d2-deposit", type := .deposit, amount := 100, status := .cleared,
     dueDate := dayNumber 2026 1 2, createdAt := 0 },
   { id := "d4-cheque", type := .cheque, amount := 50, status := .pending,
     dueDate := dayNumber 2026 1 4, createdAt := 1 },
   { id := "d4-withdrawal", type := .withdrawal, amount := 25, status := .deducted,
     dueDate := dayNumber 2026 1 4, createdAt := 2 },
   { id := "d6-deposit", type := .deposit, amount := 10, status := .pending,
     dueDate := dayNumber 2026 1 6, createdAt := 3 }]

/-- **C1**: for the window 2026-01-01..2026-01-07 with anchor balance 1000
and exactly the scenario-B instruments (cleared deposit 100 due 01-02,
pending cheque 50 and deducted withdrawal 25 due 01-04, pending deposit 10
due 01-06), `calculateProjectedBalancesForRange` returns the per-day
projected balances 1000, 1100, 1100, 1025, 1025, 1035, 1035 for the seven
dates in order, and every day's projected balance equals
`anchorBalance + cumulativeTotals.deposits - cumulativeTotals.cheques -
cumulativeTotals.withdrawals`. -/
theorem C1_literal_scenario_projection :
    ((BalanceProjection.calculateProjectedBalancesForRange
        { currentBalance := 1000, transactions := scenarioBTransactions,
          startDate := dayNumber 2026 1 1, endDate := dayNumber 2026 1 7 }).map
      (fun r => r.days.map (fun p => (p.date, p.projectedBalance)))
      = some [(dayNumber 2026 1 1, 1000), (dayNumber 2026 1 2, 1100),
          (dayNumber 2026 1 3, 1100), (dayNumber 2026 1 4, 1025),
          (dayNumber 2026 1 5, 1025), (dayNumber 2026 1 6, 1035),
          (dayNumber 2026 1 7, 1035)])
    ∧ ((BalanceProjection.calculateProjectedBalancesForRange
        { currentBalance := 1000, transactions := scenarioBTransactions,
          startDate := dayNumber 2026 1 1, endDate := dayNumber 2026 1 7 }).map
      (fun r => r.days.all (fun p =>
        p.projectedBalance == 1000 + p.cumulativeTotals.deposits
          - p.cumulativeTotals.cheques - p.cumulativeTotals.withdrawals))
      = some true) :=
  ⟨by decide, by decide⟩

/-- **C9**: the quick-range engine, for a caller-supplied resolved today,
returns `[today-7, today]` for lastWeek, `[today-30, today]` for
lastMonth, `[today, today+7]` for nextWeek and `[today, today+30]` for
nextMonth — but it has NO `thisMonth` case at all: that input falls
through the `switch` and yields `undefined` (`none`), although the repo's
own test and UI dropdown expect `thisMonth` to produce the calendar month
containing today. -/
theorem C9_quick_ranges_behaviour (today : Int) :
    QuickRanges.getQuickRangeDates .lastWeek today
        = some { startDate := today - 7, endDate := today }
    ∧ QuickRanges.getQuickRangeDates .lastMonth today
        = some { startDate := today - 30, endDate := today }
    ∧ QuickRanges.getQuickRangeDates .nextWeek today
        = some { startDate := today, endDate := today + 7 }
    ∧ QuickRanges.getQuickRangeDates .nextMonth today
        = some { startDate := today, endDate := today + 30 }
    ∧ QuickRanges.getQuickRangeDates .thisMonth today = none :=
  ⟨rfl, rfl, rfl, rfl, rfl⟩

/-- **C7 counterexample**: an instrument with a recognized status and a
non-positive amount is NOT excluded from totals — with a cleared deposit
of amount -5 due on the (single-day) window, the projected balances differ
from those computed with the instrument removed. -/
theorem C7_claim_counterexample :
    ¬ ((BalanceProjection.calculateProjectedBalancesForRange
        { currentBalance := 0,
          transactions := [{ id := "neg-deposit", type := .deposit,
                             amount := -5, status := .cleared,
                             dueDate := 10, createdAt := 0 }],
          startDate := 10, endDate := 10 }).map
          (fun r => r.days.map (fun p => p.projectedBalance))
      = (BalanceProjection.calculateProjectedBalancesForRange
        { currentBalance := 0, transactions := [],
          startDate := 10, endDate := 10 }).map
          (fun r => r.days.map (fun p => p.projectedBalance))) := by
  decide

namespace BalanceProjection

theorem foldl_amount_filter (p : Transaction → Bool) (l : List Transaction) :
    (l.filter p).foldl (fun total t => total + t.amount) 0 = sumBy p l := by
  rw [foldl_amount, zero_add]
  rfl

end BalanceProjection

open BalanceProjection Transitions QuickRanges

/-- **C8**: the single-date fallback agrees with the range projector — for
every current balance, instrument set and date `d`,
`calculateProjectedBalanceOnDate` equals the projected balance of the
single day of `calculateProjectedBalancesForRange` over the window
`[d, d]`.  (On the closed status union every instrument is
projection-eligible, so the fallback's missing status filter makes no
difference.) -/
theorem C8_single_date_fallback_agreement (cb : Int) (txs : List Transaction) (d : Int) :
    (calculateProjectedBalancesForRange
      { currentBalance := cb, transactions := txs, startDate := d, endDate := d }).map
      (fun r => r.days.map (fun p => p.projectedBalance))
      = some [Balance.calculateProjectedBalanceOnDate cb txs d] := by
  rw [calculateProjectedBalancesForRange_spec _ (le_refl d)]
  have hn : (d + 1 - d).toNat = 1 := by omega
  have hr1 : List.range 1 = [0] := by simp [List.range_succ]
  simp only [hn, Option.map_some', specDays, hr1, List.map_cons, List.map_nil]
  have hsum : ∀ ty : TransactionType,
      sumBy (fun t => t.type == ty)
        (txs.filter (fun t => isProjectionEligibleStatus t.status && t.dueDate ≤ d))
      = sumBy (fun t => t.type == ty) (txs.filter (fun t => t.dueDate ≤ d)) := by
    intro ty
    rw [sumBy_filter, sumBy_filter]
    refine sumBy_congr (fun t _ => ?_)
    simp [isProjectionEligibleStatus_true]
  simp only [specDay, dueUpTo, getProjectedBalance, totalsOn, createEmptyTotals,
    Nat.cast_zero, add_zero, zero_add]
  rw [hsum .deposit, hsum .cheque, hsum .withdrawal]
  simp only [Balance.calculateProjectedBalanceOnDate, foldl_amount_filter]

/-- **C2**: for every opening balance and instrument set,
`calculateCurrentBalance` equals the opening balance plus the cleared
deposits minus the cleared cheques-and-withdrawals (only the `cleared`
status counts); the projection module's copy agrees with the balance
module's; and changing the amount of any non-cleared (pending or
deducted) instrument leaves the result unchanged. -/
theorem C2_current_balance_cleared_only :
    (∀ (openingBalance : Int) (txs : List Transaction),
      Balance.calculateCurrentBalance openingBalance txs
        = openingBalance
          + sumBy (fun t => t.type == .deposit && t.status == .cleared) txs
          - sumBy (fun t => (t.type == .cheque || t.type == .withdrawal)
              && t.status == .cleared) txs)
    ∧ (∀ (openingBalance : Int) (txs : List Transaction),
      BalanceProjection.calculateCurrentBalance openingBalance txs
        = Balance.calculateCurrentBalance openingBalance txs)
    ∧ (∀ (openingBalance : Int) (pre post : List Transaction) (t : Transaction) (a : Int),
      t.status ≠ .cleared →
      Balance.calculateCurrentBalance openingBalance
          (pre ++ { t with amount := a } :: post)
        = Balance.calculateCurrentBalance openingBalance (pre ++ t :: post)) := by
  have h1 : ∀ (ob : Int) (txs : List Transaction),
      Balance.calculateCurrentBalance ob txs
        = ob + sumBy (fun t => t.type == .deposit && t.status == .cleared) txs
          - sumBy (fun t => (t.type == .cheque || t.type == .withdrawal)
              && t.status == .cleared) txs := by
    intro ob txs
    simp only [Balance.calculateCurrentBalance, foldl_amount_filter, sumBy_filter]
  refine ⟨h1, ?_, ?_⟩
  · intro ob txs
    rw [h1, BalanceProjection.calculateCurrentBalance, foldl_applyTransactionToTotals]
    simp only [getProjectedBalance, totalsOn, createEmptyTotals, sumBy_filter, zero_add]
    have hsplit := sumBy_split
      (fun t => (t.type == TransactionType.cheque || t.type == TransactionType.withdrawal)
        && t.status == TransactionStatus.cleared)
      (fun t => t.type == TransactionType.cheque) txs
    have e1 : sumBy (fun t =>
          ((t.type == TransactionType.cheque || t.type == TransactionType.withdrawal)
            && t.status == TransactionStatus.cleared)
          && (t.type == TransactionType.cheque)) txs
        = sumBy (fun t => t.type == TransactionType.cheque
            && t.status == TransactionStatus.cleared) txs :=
      sumBy_congr (fun t _ => by cases t.type <;> cases t.status <;> rfl)
    have e2 : sumBy (fun t =>
          ((t.type == TransactionType.cheque || t.type == TransactionType.withdrawal)
            && t.status == TransactionStatus.cleared)
          && !(t.type == TransactionType.cheque)) txs
        = sumBy (fun t => t.type == TransactionType.withdrawal
            && t.status == TransactionStatus.cleared) txs :=
      sumBy_congr (fun t _ => by cases t.type <;> cases t.status <;> rfl)
    rw [e1, e2] at hsplit
    omega
  · intro ob pre post t a hst
    rw [h1, h1]
    have hb : (({ t with amount := a } : Transaction).status
        == TransactionStatus.cleared) = false := by
      simpa using hst
    have hb' : (t.status == TransactionStatus.cleared) = false := by
      simpa using hst
    simp [sumBy_insert, hb, hb']

/-- Concrete instance discharging C2's hypothesis: changing the amount of
a pending (non-cleared) cheque from 50 to 90 leaves the current balance
unchanged. -/
theorem C2_witness_concrete :
    Balance.calculateCurrentBalance 1000
        ([] ++ { id := "c", type := .cheque, amount := 90, status := .pending,
                 dueDate := 4, createdAt := 0 } :: [])
      = Balance.calculateCurrentBalance 1000
        ([] ++ { id := "c", type := .cheque, amount := 50, status := .pending,
                 dueDate := 4, createdAt := 0 } :: []) :=
  C2_current_balance_cleared_only.2.2 1000 [] []
    { id := "c", type := .cheque, amount := 50, status := .pending,
      dueDate := 4, createdAt := 0 } 90 (by decide)

/-- **C3**: pre-range seeding — an instrument due strictly before the
window start (every instrument of the closed status union is
projection-eligible) contributes its amount, under its kind's sign, to the
`cumulativeTotals` and `projectedBalance` of every day of the window,
while appearing in no day's `dayTotals`: compared with the projection on
the same set with the instrument removed, every day's `dayTotals` agree,
every day's `cumulativeTotals` carry the instrument folded into its kind's
bucket, and every day's `projectedBalance` is shifted by its signed
amount. -/
theorem C3_pre_range_seeding (cb : Int) (pre post : List Transaction) (t : Transaction)
    (start stop : Int) (h : start ≤ stop) (hdue : t.dueDate < start) :
    ∃ r r',
      calculateProjectedBalancesForRange
        { currentBalance := cb, transactions := pre ++ t :: post,
          startDate := start, endDate := stop } = some r ∧
      calculateProjectedBalancesForRange
        { currentBalance := cb, transactions := pre ++ post,
          startDate := start, endDate := stop } = some r' ∧
      r.days.length = r'.days.length ∧
      ∀ (i : Nat) (p q : DayProjection), r.days[i]? = some p → r'.days[i]? = some q →
        p.date = q.date ∧ p.dayTotals = q.dayTotals ∧
        p.cumulativeTotals = applyTransactionToTotals q.cumulativeTotals t ∧
        p.projectedBalance = q.projectedBalance + signedAmount t := by
  obtain ⟨r, r', h1, h2, hlen, hrel⟩ := calcRange_insert cb pre post t start stop h
  refine ⟨r, r', h1, h2, hlen, ?_⟩
  intro i p q hp hq
  obtain ⟨hdi, hdq, hdt, hct, hpb⟩ := hrel i p q hp hq
  have hlt : t.dueDate < p.date := by rw [hdi]; omega
  refine ⟨hdq, ?_, ?_, ?_⟩
  · rwa [if_neg (by omega)] at hdt
  · rwa [if_pos (by omega)] at hct
  · rwa [if_pos (by omega)] at hpb

/-- Concrete instance discharging C3's hypotheses: a pending deposit of 40
due on day 3, window days 5..6, versus the empty set. -/
theorem C3_witness_concrete :
    ∃ r r',
      calculateProjectedBalancesForRange
        { currentBalance := 100,
          transactions := [] ++ { id := "early", type := .deposit, amount := 40,
                                  status := .pending, dueDate := 3,
                                  createdAt := 0 } :: [],
          startDate := 5, endDate := 6 } = some r ∧
      calculateProjectedBalancesForRange
        { currentBalance := 100, transactions := [] ++ [],
          startDate := 5, endDate := 6 } = some r' ∧
      r.days.length = r'.days.length ∧
      ∀ (i : Nat) (p q : DayProjection), r.days[i]? = some p → r'.days[i]? = some q →
        p.date = q.date ∧ p.dayTotals = q.dayTotals ∧
        p.cumulativeTotals = applyTransactionToTotals q.cumulativeTotals
          { id := "early", type := .deposit, amount := 40, status := .pending,
            dueDate := 3, createdAt := 0 } ∧
        p.projectedBalance = q.projectedBalance + signedAmount
          { id := "early", type := .deposit, amount := 40, status := .pending,
            dueDate := 3, createdAt := 0 } :=
  C3_pre_range_seeding 100 [] []
    { id := "early", type := .deposit, amount := 40, status := .pending,
      dueDate := 3, createdAt := 0 } 5 6 (by decide) (by decide)

/-- **C7 (amended)**: an instrument with a recognized status and
non-positive amount does not crash the engine — on any valid window the
projection still returns a result — but the instrument is NOT excluded
from totals: relative to the projection with the instrument removed, it
lands in `dayTotals` exactly on its due date and shifts
`cumulativeTotals`/`projectedBalance` (by its signed amount) on every day
from its due date onward, exactly like any other instrument. -/
theorem C7_nonpositive_amount_included (cb : Int) (pre post : List Transaction)
    (t : Transaction) (start stop : Int) (h : start ≤ stop) (_hamt : t.amount ≤ 0) :
    ∃ r r',
      calculateProjectedBalancesForRange
        { currentBalance := cb, transactions := pre ++ t :: post,
          startDate := start, endDate := stop } = some r ∧
      calculateProjectedBalancesForRange
        { currentBalance := cb, transactions := pre ++ post,
          startDate := start, endDate := stop } = some r' ∧
      r.days.length = r'.days.length ∧
      ∀ (i : Nat) (p q : DayProjection), r.days[i]? = some p → r'.days[i]? = some q →
        p.date = q.date ∧
        p.dayTotals = (if t.dueDate = p.date
          then applyTransactionToTotals q.dayTotals t else q.dayTotals) ∧
        p.cumulativeTotals = (if t.dueDate ≤ p.date
          then applyTransactionToTotals q.cumulativeTotals t else q.cumulativeTotals) ∧
        p.projectedBalance = (if t.dueDate ≤ p.date
          then q.projectedBalance + signedAmount t else q.projectedBalance) := by
  obtain ⟨r, r', h1, h2, hlen, hrel⟩ := calcRange_insert cb pre post t start stop h
  refine ⟨r, r', h1, h2, hlen, ?_⟩
  intro i p q hp hq
  obtain ⟨_, hdq, hdt, hct, hpb⟩ := hrel i p q hp hq
  exact ⟨hdq, hdt, hct, hpb⟩

/-- Concrete instance discharging C7's hypotheses: a cleared deposit of
amount -5 due on the single window day, versus the empty set. -/
theorem C7_witness_concrete :
    ∃ r r',
      calculateProjectedBalancesForRange
        { currentBalance := 0,
          transactions := [] ++ { id := "neg-deposit", type := .deposit,
                                  amount := -5, status := .cleared,
                                  dueDate := 10, createdAt := 0 } :: [],
          startDate := 10, endDate := 10 } = some r ∧
      calculateProjectedBalancesForRange
        { currentBalance := 0, transactions := [] ++ [],
          startDate := 10, endDate := 10 } = some r' ∧
      r.days.length = r'.days.length ∧
      ∀ (i : Nat) (p q : DayProjection), r.days[i]? = some p → r'.days[i]? = some q →
        p.date = q.date ∧
        p.dayTotals = (if (10 : Int) = p.date
          then applyTransactionToTotals q.dayTotals
            { id := "neg-deposit", type := .deposit, amount := -5,
              status := .cleared, dueDate := 10, createdAt := 0 }
          else q.dayTotals) ∧
        p.cumulativeTotals = (if (10 : Int) ≤ p.date
          then applyTransactionToTotals q.cumulativeTotals
            { id := "neg-deposit", type := .deposit, amount := -5,
              status := .cleared, dueDate := 10, createdAt := 0 }
          else q.cumulativeTotals) ∧
        p.projectedBalance = (if (10 : Int) ≤ p.date
          then q.projectedBalance + signedAmount
            { id := "neg-deposit", type := .deposit, amount := -5,
              status := .cleared, dueDate := 10, createdAt := 0 }
          else q.projectedBalance) :=
  C7_nonpositive_amount_included 0 [] []
    { id := "neg-deposit", type := .deposit, amount := -5, status := .cleared,
      dueDate := 10, createdAt := 0 } 10 10 (by decide) (by decide)

/-- **C4**: carry-forward — whenever two consecutive days of a projection
are such that no eligible instrument is due on the second day, that second
day's `dayTotals` are all zero and its `cumulativeTotals` and
`projectedBalance` equal the previous day's; in particular, with an empty
instrument set every day's `projectedBalance` equals the anchor
balance. -/
theorem C4_carry_forward :
    (∀ (params : BuildProjectionParams) (r : ProjectionResult),
      params.startDate ≤ params.endDate →
      calculateProjectedBalancesForRange params = some r →
      ∀ (i : Nat) (p q : DayProjection),
        r.days[i]? = some p → r.days[i + 1]? = some q →
        (∀ t ∈ params.transactions,
          isProjectionEligibleStatus t.status = true → t.dueDate ≠ q.date) →
        q.dayTotals = createEmptyTotals
          ∧ q.cumulativeTotals = p.cumulativeTotals
          ∧ q.projectedBalance = p.projectedBalance)
    ∧ (∀ (cb start stop : Int) (r : ProjectionResult),
      start ≤ stop →
      calculateProjectedBalancesForRange
        { currentBalance := cb, transactions := [],
          startDate := start, endDate := stop } = some r →
      ∀ p ∈ r.days, p.projectedBalance = cb) := by
  constructor
  · intro params r h hr i p q hp hq hnone
    rw [calculateProjectedBalancesForRange_spec params h] at hr
    obtain rfl := Option.some.inj hr
    simp only at hp hq
    have hq' : i + 1 < (params.endDate + 1 - params.startDate).toNat := by
      by_contra hni
      rw [List.getElem?_eq_none
        (by simpa [specDays_length] using Nat.le_of_not_lt hni)] at hq
      exact Option.noConfusion hq
    have hp' : i < (params.endDate + 1 - params.startDate).toNat := by omega
    rw [specDays_getElem _ _ _ _ _ hp'] at hp
    rw [specDays_getElem _ _ _ _ _ hq'] at hq
    obtain rfl := Option.some.inj hp
    obtain rfl := Option.some.inj hq
    simp only [specDay] at hnone
    have hnil : dueOn params.transactions (params.startDate + ((i : Int) + 1))
        = [] := by
      rw [dueOn, List.filter_eq_nil_iff]
      intro t ht
      have hne := hnone t ht (isProjectionEligibleStatus_true t.status)
      push_cast at hne
      simp only [isProjectionEligibleStatus_true, Bool.true_and, beq_iff_eq]
      omega
    have hft : dueUpTo params.transactions (params.startDate + ((i : Int) + 1))
        = dueUpTo params.transactions (params.startDate + (i : Int)) := by
      rw [dueUpTo, dueUpTo]
      refine List.filter_congr (fun t ht => ?_)
      have hne := hnone t ht (isProjectionEligibleStatus_true t.status)
      push_cast at hne
      simp only [isProjectionEligibleStatus_true, Bool.true_and]
      rw [decide_eq_decide]
      omega
    refine ⟨?_, ?_, ?_⟩
    · simp only [specDay]
      push_cast
      rw [hnil]
      exact totalsOn_nil _
    · simp only [specDay]
      push_cast
      rw [hft]
    · simp only [specDay]
      push_cast
      rw [hft]
  · intro cb start stop r h hr p hp
    rw [calculateProjectedBalancesForRange_spec _ h] at hr
    obtain rfl := Option.some.inj hr
    simp only [specDays, List.mem_map] at hp
    obtain ⟨i, _, rfl⟩ := hp
    simp [specDay, dueUpTo, totalsOn_nil, getProjectedBalance, createEmptyTotals]

/-- Concrete instance discharging C4's hypotheses: with an anchored empty
instrument set on the window 2..3, day 3 carries day 2's totals and
balance forward. -/
theorem C4_witness_concrete :
    ({ date := (3 : Int), dayTotals := totalsOn createEmptyTotals [],
       cumulativeTotals := totalsOn createEmptyTotals [],
       projectedBalance := getProjectedBalance 7 (totalsOn createEmptyTotals []) }
        : DayProjection).dayTotals = createEmptyTotals
    ∧ ({ date := (3 : Int), dayTotals := totalsOn createEmptyTotals [],
         cumulativeTotals := totalsOn createEmptyTotals [],
         projectedBalance := getProjectedBalance 7 (totalsOn createEmptyTotals []) }
          : DayProjection).cumulativeTotals
      = ({ date := (2 : Int), dayTotals := totalsOn createEmptyTotals [],
           cumulativeTotals := totalsOn createEmptyTotals [],
           projectedBalance := getProjectedBalance 7 (totalsOn createEmptyTotals []) }
            : DayProjection).cumulativeTotals
    ∧ ({ date := (3 : Int), dayTotals := totalsOn createEmptyTotals [],
         cumulativeTotals := totalsOn createEmptyTotals [],
         projectedBalance := getProjectedBalance 7 (totalsOn createEmptyTotals []) }
          : DayProjection).projectedBalance
      = ({ date := (2 : Int), dayTotals := totalsOn createEmptyTotals [],
           cumulativeTotals := totalsOn createEmptyTotals [],
           projectedBalance := getProjectedBalance 7 (totalsOn createEmptyTotals []) }
            : DayProjection).projectedBalance :=
  C4_carry_forward.1
    { currentBalance := 7, transactions := [], startDate := 2, endDate := 3 }
    { rangeStart := 2, rangeEnd := 3, currentBalance := 7,
      days := specDays 7 [] 2 2,
      byDate := (specDays 7 [] 2 2).map (fun p => (p.date, p)) }
    (by decide) rfl 0 _ _ rfl rfl (by decide)

namespace Transitions

theorem process_updatedChequesWithdrawals (d : Int) (txs : List Transaction) :
    (process_due_status_transitions d txs).updatedChequesWithdrawals
      = (txs.filter (chequeWithdrawalDue d)).length := rfl

end Transitions

/-- **C5**: for every snapshot and local date, the status-transition
operation changes exactly the instruments with `status == pending` and
`dueDate == localDate` — cheques and withdrawals become `deducted`,
deposits become `cleared` — every other instrument passes through with its
status (and all other fields) unchanged, and the output reports the
cheque/withdrawal transition count and the deposit transition count
separately, both measured against the input snapshot. -/
theorem C5_transition_effect (d : Int) (txs : List Transaction) :
    (process_due_status_transitions d txs).localDate = d
    ∧ (process_due_status_transitions d txs).transactions.length = txs.length
    ∧ (∀ (i : Nat) (t : Transaction), txs[i]? = some t →
        (process_due_status_transitions d txs).transactions[i]?
          = some (if t.status = .pending ∧ t.dueDate = d then
              (match t.type with
               | TransactionType.cheque => { t with status := .deducted }
               | TransactionType.withdrawal => { t with status := .deducted }
               | TransactionType.deposit => { t with status := .cleared })
            else t))
    ∧ (process_due_status_transitions d txs).updatedChequesWithdrawals
        = (txs.filter (chequeWithdrawalDue d)).length
    ∧ (process_due_status_transitions d txs).updatedDeposits
        = (txs.filter (depositDue d)).length := by
  refine ⟨rfl, ?_, ?_, rfl, process_updatedDeposits d txs⟩
  · rw [process_transactions_map, List.length_map]
  · intro i t ht
    rw [process_transactions_map, List.getElem?_map, ht, Option.map_some']
    congr 1
    by_cases hp : t.status = TransactionStatus.pending ∧ t.dueDate = d
    · rw [if_pos hp]
      obtain ⟨hs, hd⟩ := hp
      cases htype : t.type
      · have h1 : chequeWithdrawalDue d t = false := by
          simp [chequeWithdrawalDue, htype]
        have h2 : depositDue d t = true := by
          simp [depositDue, htype, hs, hd]
        simp [transitionStep, h1, h2, htype]
      · have h1 : chequeWithdrawalDue d t = true := by
          simp [chequeWithdrawalDue, htype, hs, hd]
        simp [transitionStep, h1, htype]
      · have h1 : chequeWithdrawalDue d t = true := by
          simp [chequeWithdrawalDue, htype, hs, hd]
        simp [transitionStep, h1, htype]
    · rw [if_neg hp]
      rcases not_and_or.mp hp with hs | hd
      · have hb : (t.status == TransactionStatus.pending) = false := by simp [hs]
        simp [transitionStep, chequeWithdrawalDue, depositDue, hb]
      · have hb : (t.dueDate == d) = false := by simp [hd]
        simp [transitionStep, chequeWithdrawalDue, depositDue, hb]

/-- Concrete instance discharging C5's hypotheses: a pending cheque due on
the invocation date becomes deducted, all other fields unchanged. -/
theorem C5_witness_concrete :
    (process_due_status_transitions 5
      [{ id := "c1", type := .cheque, amount := 20, status := .pending,
         dueDate := 5, createdAt := 0 }]).transactions[0]?
      = some { id := "c1", type := .cheque, amount := 20, status := .deducted,
               dueDate := 5, createdAt := 0 } := by
  rw [(C5_transition_effect 5
    [{ id := "c1", type := .cheque, amount := 20, status := .pending,
       dueDate := 5, createdAt := 0 }]).2.2.1 0 _ rfl]
  decide

/-- **C6**: the status-transition operation is idempotent — applying it a
second time with the same local date leaves every instrument's status
exactly as after the first application (the rows transitioned first no
longer satisfy the `status == pending` precondition), and the second run
reports zero transitions of either kind. -/
theorem C6_transition_idempotent (d : Int) (txs : List Transaction) :
    (process_due_status_transitions d
        (process_due_status_transitions d txs).transactions).transactions
      = (process_due_status_transitions d txs).transactions
    ∧ (process_due_status_transitions d
        (process_due_status_transitions d txs).transactions).updatedChequesWithdrawals
      = 0
    ∧ (process_due_status_transitions d
        (process_due_status_transitions d txs).transactions).updatedDeposits = 0 := by
  have hnm : ∀ u ∈ (process_due_status_transitions d txs).transactions,
      chequeWithdrawalDue d u = false ∧ depositDue d u = false := by
    intro u hu
    rw [process_transactions_map] at hu
    rcases List.mem_map.mp hu with ⟨t, _, rfl⟩
    exact transitionStep_not_matched d t
  have hfilter1 : (process_due_status_transitions d txs).transactions.filter
      (chequeWithdrawalDue d) = [] :=
    List.filter_eq_nil_iff.mpr (fun u hu => by simp [(hnm u hu).1])
  have hfilter2 : (process_due_status_transitions d txs).transactions.filter
      (depositDue d) = [] :=
    List.filter_eq_nil_iff.mpr (fun u hu => by simp [(hnm u hu).2])
  refine ⟨?_, ?_, ?_⟩
  · rw [process_transactions_map]
    have hid : ∀ u ∈ (process_due_status_transitions d txs).transactions,
        transitionStep d u = id u := by
      intro u hu
      simp [transitionStep, (hnm u hu).1, (hnm u hu).2]
    rw [List.map_congr_left hid, List.map_id]
  · rw [process_updatedChequesWithdrawals, hfilter1]
    rfl
  · rw [process_updatedDeposits, hfilter2]
    rfl

/-- **C10**: the status-transition operation matches due dates by equality
only and never catches up missed days — an instrument with
`status == pending` whose `dueDate` lies strictly before the invocation's
local date passes through unchanged, and under any sequence of
invocations whose local dates are all later than the instrument's due
date, the instrument remains pending (entirely unchanged) forever. -/
theorem C10_no_catch_up :
    (∀ (d : Int) (txs : List Transaction) (i : Nat) (t : Transaction),
      txs[i]? = some t → t.status = .pending → t.dueDate < d →
      (process_due_status_transitions d txs).transactions[i]? = some t)
    ∧ (∀ (dates : List Int) (txs : List Transaction) (i : Nat) (t : Transaction),
      txs[i]? = some t → t.status = .pending → (∀ L ∈ dates, t.dueDate < L) →
      (applySequence dates txs)[i]? = some t) := by
  have hstep : ∀ (d : Int) (txs : List Transaction) (i : Nat) (t : Transaction),
      txs[i]? = some t → t.dueDate < d →
      (process_due_status_transitions d txs).transactions[i]? = some t := by
    intro d txs i t ht hlt
    rw [process_transactions_map, List.getElem?_map, ht, Option.map_some',
      transitionStep_unchanged_of_not_due d t (by omega)]
  constructor
  · intro d txs i t ht _ hlt
    exact hstep d txs i t ht hlt
  · intro dates
    induction dates with
    | nil =>
      intro txs i t ht _ _
      simpa [applySequence] using ht
    | cons L ds ih =>
      intro txs i t ht hs hall
      have h1 := hstep L txs i t ht (hall L (List.mem_cons_self L ds))
      have hseq : applySequence (L :: ds) txs
          = applySequence ds (process_due_status_transitions L txs).transactions := rfl
      rw [hseq]
      exact ih _ i t h1 hs (fun L' hL' => hall L' (List.mem_cons_of_mem L hL'))

/-- Concrete instance discharging C10's hypotheses: a pending cheque due
on day 3 is still exactly the same record after the engine runs for local
dates 5 and then 6. -/
theorem C10_witness_concrete :
    (applySequence [5, 6]
      [{ id := "late", type := .cheque, amount := 20, status := .pending,
         dueDate := 3, createdAt := 0 }])[0]?
      = some { id := "late", type := .cheque, amount := 20, status := .pending,
               dueDate := 3, createdAt := 0 } :=
  C10_no_catch_up.2 [5, 6]
    [{ id := "late", type := .cheque, amount := 20, status := .pending,
       dueDate := 3, createdAt := 0 }] 0
    { id := "late", type := .cheque, amount := 20, status := .pending,
      dueDate := 3, createdAt := 0 } rfl rfl (by decide)
